import Mathlib

/-!
# Verification of the email-scraper lead-extraction pipeline

Shallow embedding of the pure core of `src/main.go`: string utilities,
URL canonicalization (`cleanWebsiteURL`), email extraction
(`extractEmails` / `extractFirstEmail` over the email regular
expression), phone extraction (`extractPhone` / `isInvalidPhone` /
`formatPhone` over the two phone patterns), the feed-collection loop
(`collectPlaceURLs`), the contact merge of `scrapePlacePage`, and the
lead store (`insertBusiness` plus the UNIQUE index of `initDB`).
Strings are modelled as `List Char`; Go maps are modelled by their key
set in first-insertion order together with an explicit enumeration
order (Go map iteration order is unspecified).
-/

/-- Models Go `unicode.IsSpace` (the Unicode White_Space property) on a
single character. -/
def goIsSpace (c : Char) : Bool :=
  let n := c.toNat
  n == 0x20 || (0x9 ≤ n && n ≤ 0xD) || n == 0x85 || n == 0xA0 ||
  n == 0x1680 || (0x2000 ≤ n && n ≤ 0x200A) || n == 0x2028 ||
  n == 0x2029 || n == 0x202F || n == 0x205F || n == 0x3000

/-- Models Go `strings.TrimSpace`: drop leading and trailing
White_Space characters. -/
def goTrimSpace (s : List Char) : List Char :=
  ((s.dropWhile goIsSpace).reverse.dropWhile goIsSpace).reverse

/-- `listStarts pat s` holds when `pat` is an initial segment of `s`. -/
def listStarts : List Char → List Char → Bool
  | [], _ => true
  | _ :: _, [] => false
  | p :: ps, c :: cs => p == c && listStarts ps cs

/-- `hasSub pat s`: some suffix of `s` starts with `pat`. -/
def hasSub (pat : List Char) : List Char → Bool
  | [] => listStarts pat []
  | c :: cs => listStarts pat (c :: cs) || hasSub pat cs

/-- Models Go `strings.Contains s sub`. -/
def goContains (s sub : List Char) : Bool := hasSub sub s

/-- The search-engine outbound-link wrapper marker used by
`cleanWebsiteURL` (src/main.go line 554). -/
def urlWrapMark : List Char := "/url?q=".data

/-- Everything after the first occurrence of `pat` (used to model
`strings.Split u pat` taking `parts[1]`, first half). -/
def afterFirst (pat : List Char) : List Char → List Char
  | [] => []
  | c :: cs =>
    if listStarts pat (c :: cs) then (c :: cs).drop pat.length
    else afterFirst pat cs

/-- Everything up to (excluding) the next occurrence of `pat`; the
whole list when `pat` does not occur.  `afterFirst` followed by
`upToNext` is Go's `strings.Split u pat` element `parts[1]`. -/
def upToNext (pat : List Char) : List Char → List Char
  | [] => []
  | c :: cs =>
    if listStarts pat (c :: cs) then []
    else c :: upToNext pat cs

/-- Truncate at the first `'&'`: models
`if idx := strings.Index(u, "&"); idx != -1 { u = u[:idx] }`
(src/main.go lines 558-560). -/
def cutAtAmp : List Char → List Char
  | [] => []
  | c :: cs => if c == '&' then [] else c :: cutAtAmp cs

/-- Truncate at the first `'?'` or `'#'`: models
`if idx := strings.IndexAny(u, "?#"); idx != -1 { u = u[:idx] }`
(src/main.go lines 564-566). -/
def cutAtQH : List Char → List Char
  | [] => []
  | c :: cs => if c == '?' || c == '#' then [] else c :: cutAtQH cs

/-- Models `cleanWebsiteURL` (src/main.go lines 548-568): trim
whitespace; unwrap a `/url?q=` redirect wrapper (taking Go
`strings.Split`'s `parts[1]` and truncating at the first `&`); then
strip everything from the first `?` or `#`. -/
def cleanWebsiteURL (u0 : List Char) : List Char :=
  let u := goTrimSpace u0
  if u = [] then []
  else
    let u1 :=
      if goContains u urlWrapMark then
        cutAtAmp (upToNext urlWrapMark (afterFirst urlWrapMark u))
      else u
    cutAtQH u1

/-- Models Go `strings.ToLower` (ASCII range, the only case-carrying
characters the claims exercise). -/
def goToLower (s : List Char) : List Char := s.map Char.toLower

/-- RE2 word character (`\b` is defined over `[0-9A-Za-z_]`). -/
def isWordChar (c : Char) : Bool := c.isAlphanum || c == '_'

/-- Character class `[A-Za-z0-9._%+\-]` (local part of the email
regular expression, src/main.go line 66). -/
def emailLocalChar (c : Char) : Bool :=
  c.isAlphanum || c == '.' || c == '_' || c == '%' || c == '+' || c == '-'

/-- Character class `[A-Za-z0-9.\-]` (domain part). -/
def emailDomChar (c : Char) : Bool := c.isAlphanum || c == '.' || c == '-'

/-- Character class `[A-Z|a-z]` (top-level-domain part; note the
literal `|` inside the class in the source). -/
def emailTldChar (c : Char) : Bool := c.isAlpha || c == '|'

/-- RE2 `\b`: position `p` of `s` is a word boundary. -/
def atBoundary (s : List Char) (p : Nat) : Bool :=
  let before :=
    if p = 0 then false
    else match s[p-1]? with
      | some c => isWordChar c
      | none => false
  let after :=
    match s[p]? with
    | some c => isWordChar c
    | none => false
  before != after

/-- Length of the maximal run of characters satisfying `f` starting at
position `p` of `s`. -/
def runLen (f : Char → Bool) (s : List Char) (p : Nat) : Nat :=
  ((s.drop p).takeWhile f).length

/-- Backtracking over the `[A-Z|a-z]{2,}\b` tail of the email pattern:
greedy, trying run lengths `j, j-1, …, 2`, each followed by a word
boundary; returns the match end position. -/
def emailTldEnd (s : List Char) (q : Nat) : Nat → Option Nat
  | 0 => none
  | 1 => none
  | j+2 => if atBoundary s (q+j+2) then some (q+j+2) else emailTldEnd s q (j+1)

/-- Backtracking over `[A-Za-z0-9.\-]+\.` followed by the TLD tail:
tries domain run lengths `d, d-1, …, 1`, each requiring a literal `.`
right after. -/
def emailDomEnd (s : List Char) (q : Nat) : Nat → Option Nat
  | 0 => none
  | d+1 =>
    match (if s[q+d+1]? == some '.' then
            emailTldEnd s (q+d+2) (runLen emailTldChar s (q+d+2))
          else none) with
    | some e => some e
    | none => emailDomEnd s q d

/-- Backtracking over `[A-Za-z0-9._%+\-]+@` followed by the domain
tail: tries local run lengths `l, l-1, …, 1`, each requiring `@` right
after. -/
def emailLocalEnd (s : List Char) (p : Nat) : Nat → Option Nat
  | 0 => none
  | l+1 =>
    match (if s[p+l+1]? == some '@' then
            emailDomEnd s (p+l+2) (runLen emailDomChar s (p+l+2))
          else none) with
    | some e => some e
    | none => emailLocalEnd s p l

/-- Leftmost-first match of the email regular expression
`(?i)\b[A-Za-z0-9._%+\-]+@[A-Za-z0-9.\-]+\.[A-Z|a-z]{2,}\b`
(src/main.go line 66) starting exactly at position `p`; returns the
end position of the first match backtracking finds. -/
def emailMatchAt (s : List Char) (p : Nat) : Option Nat :=
  if atBoundary s p then emailLocalEnd s p (runLen emailLocalChar s p)
  else none

/-- Scan for successive non-overlapping leftmost matches, as Go
`regexp.FindAllString` does; `fuel` bounds the scan (the position
strictly increases each step). -/
def emailFindAllAux (s : List Char) : Nat → Nat → List (List Char)
  | 0, _ => []
  | fuel+1, p =>
    if p > s.length then []
    else
      match emailMatchAt s p with
      | some e =>
        ((s.drop p).take (e - p)) ::
          emailFindAllAux s fuel (if p < e then e else p + 1)
      | none => emailFindAllAux s fuel (p + 1)

/-- Models `emailRegex.FindAllString text -1`. -/
def emailFindAll (s : List Char) : List (List Char) :=
  emailFindAllAux s (s.length + 1) 0

/-- The fixed exclusion list `invalidEmailPatterns`
(src/main.go lines 68-77). -/
def invalidEmailPatterns : List (List Char) :=
  ["example.com".data, "@example".data, ".png".data, ".jpg".data,
   ".gif".data, "sampleemail".data, "youremail".data, "noreply".data]

/-- The inner exclusion test of `extractEmails`: the lower-cased
candidate contains some exclusion-list substring. -/
def isExcludedEmail (lower : List Char) : Bool :=
  invalidEmailPatterns.any (fun pat => goContains lower pat)

/-- The accumulation loop of `extractEmails` (src/main.go lines
596-616): case-insensitive dedup via `seen`, exclusion filtering, and
append of the original-casing candidate. -/
def extractEmailsLoop : List (List Char) → List (List Char) → List (List Char) → List (List Char)
  | [], _, out => out
  | m :: rest, seen, out =>
    let email := goTrimSpace m
    let lower := goToLower email
    if lower ∈ seen then extractEmailsLoop rest seen out
    else if isExcludedEmail lower then extractEmailsLoop rest seen out
    else extractEmailsLoop rest (seen ++ [lower]) (out ++ [email])

/-- Models `extractEmails` (src/main.go lines 590-618). -/
def extractEmails (text : List Char) : List (List Char) :=
  extractEmailsLoop (emailFindAll text) [] []

/-- Models `extractFirstEmail` (src/main.go lines 620-626); the empty
list models Go's `""`. -/
def extractFirstEmail (text : List Char) : List Char :=
  match extractEmails text with
  | [] => []
  | e :: _ => e

/-- One piece of a phone pattern: an optional single character from a
set, or a greedy bounded digit run `\d{lo,hi}`. -/
inductive PatPiece where
  | opt (cs : List Char)
  | digs (lo hi : Nat)

/-- The separator class `[-.\s]` of the phone patterns (`\s` in RE2 is
`[\t\n\f\r ]`). -/
def phoneSepChars : List Char := ['-', '.', '\t', '\n', '\x0c', '\r', ' ']

/-- The first phone pattern
`\+?\d{1,3}[-.\s]?\(?\d{1,4}\)?[-.\s]?\d{1,4}[-.\s]?\d{1,9}`
(src/main.go line 80). -/
def phonePat1 : List PatPiece :=
  [.opt ['+'], .digs 1 3, .opt phoneSepChars, .opt ['('], .digs 1 4,
   .opt [')'], .opt phoneSepChars, .digs 1 4, .opt phoneSepChars, .digs 1 9]

/-- The second phone pattern `\(?\d{3}\)?[-.\s]?\d{3}[-.\s]?\d{4}`
(src/main.go line 81). -/
def phonePat2 : List PatPiece :=
  [.opt ['('], .digs 3 3, .opt [')'], .opt phoneSepChars, .digs 3 3,
   .opt phoneSepChars, .digs 4 4]

/-- Greedy backtracking over a digit run: try lengths `k, k-1, …, lo`,
handing each end position to the continuation. -/
def digsDescend (cont : Nat → Option Nat) (p lo : Nat) : Nat → Option Nat
  | 0 =>
    if lo == 0 then cont p else none
  | k+1 =>
    if k+1 < lo then none
    else
      match cont (p + (k+1)) with
      | some e => some e
      | none => digsDescend cont p lo k

/-- Leftmost-first backtracking matcher for a sequence of
`PatPiece`s starting exactly at position `p`; returns the match end. -/
def runPieces : List PatPiece → List Char → Nat → Option Nat
  | [], _, p => some p
  | .opt cs :: rest, s, p =>
    (match s[p]? with
     | some c =>
       if cs.contains c then
         match runPieces rest s (p+1) with
         | some e => some e
         | none => runPieces rest s p
       else runPieces rest s p
     | none => runPieces rest s p)
  | .digs lo hi :: rest, s, p =>
    digsDescend (fun q => runPieces rest s q) p lo
      (Nat.min hi (runLen Char.isDigit s p))

/-- Scan for successive non-overlapping leftmost matches of a phone
pattern, as Go `regexp.FindAllString` does. -/
def phoneFindAllAux (pieces : List PatPiece) (s : List Char) : Nat → Nat → List (List Char)
  | 0, _ => []
  | fuel+1, p =>
    if p > s.length then []
    else
      match runPieces pieces s p with
      | some e =>
        ((s.drop p).take (e - p)) ::
          phoneFindAllAux pieces s fuel (if p < e then e else p + 1)
      | none => phoneFindAllAux pieces s fuel (p + 1)

/-- Models `re.FindAllString text -1` for one phone pattern. -/
def phoneFindAll (pieces : List PatPiece) (s : List Char) : List (List Char) :=
  phoneFindAllAux pieces s (s.length + 1) 0

/-- Models `nonDigitRegexp.ReplaceAllString m ""` (keep the digits). -/
def digitsOf (s : List Char) : List Char := s.filter Char.isDigit

/-- Numeric value of a digit string. -/
def digitsVal (s : List Char) : Nat :=
  s.foldl (fun a c => a * 10 + (c.toNat - '0'.toNat)) 0

/-- Models `strconv.Atoi` on the non-negative inputs it receives in
`isInvalidPhone` (a slice of a digits-only string). -/
def goAtoi (s : List Char) : Option Nat :=
  if s ≠ [] ∧ s.all Char.isDigit then some (digitsVal s) else none

/-- All characters equal to the first one, vacuously true when empty:
the `allSame` loop of `isInvalidPhone` (src/main.go lines 656-662). -/
def allSameDigits : List Char → Bool
  | [] => true
  | c :: cs => cs.all (fun d => d == c)

/-- Models `isInvalidPhone` (src/main.go lines 645-664): an 8-digit
string whose leading four digits parse to a year in [1900, 2100], a
string of more than 15 digits, or an all-identical string. -/
def isInvalidPhone (digits : List Char) : Bool :=
  (if digits.length == 8 then
    match goAtoi (digits.take 4) with
    | some year => decide (1900 ≤ year) && decide (year ≤ 2100)
    | none => false
   else false)
  || digits.length > 15
  || allSameDigits digits

/-- Models `formatPhone` (src/main.go lines 666-675): group 10-digit
and leading-1 11-digit numbers, pass anything else through. -/
def formatPhone (phone : List Char) : List Char :=
  let digits := digitsOf phone
  if digits.length == 10 then
    '(' :: (digits.take 3 ++ (')' :: ' ' :: ((digits.drop 3).take 3 ++
      ('-' :: digits.drop 6))))
  else if digits.length == 11 && digits[0]? == some '1' then
    '+' :: '1' :: ' ' :: '(' :: ((digits.drop 1).take 3 ++ (')' :: ' ' ::
      ((digits.drop 4).take 3 ++ ('-' :: digits.drop 7))))
  else phone

/-- The candidate loop of `extractPhone` (src/main.go lines 629-641),
over the flattened match list (pattern 1's matches, then pattern 2's,
exactly the order the nested Go loops consider them). -/
def pickPhone : List (List Char) → Nat → List Char
  | [], _ => []
  | m :: rest, minDigits =>
    let ds := digitsOf m
    if ds.length < minDigits || ds.length > 15 then pickPhone rest minDigits
    else if isInvalidPhone ds then pickPhone rest minDigits
    else formatPhone m

/-- Models `extractPhone` (src/main.go lines 628-643); the empty list
models Go's `""`. -/
def extractPhone (text : List Char) (minDigits : Nat) : List Char :=
  pickPhone (phoneFindAll phonePat1 text ++ phoneFindAll phonePat2 text) minDigits

/-- The `Business` record (src/main.go lines 53-63); `Rating` is kept
as a rational and `ScrapedAt` as an abstract tick, neither participates
in any claim. The autoincrement `ID` column is not part of the record
handed to `insertBusiness` and is omitted. -/
structure Business where
  Name : List Char
  Address : List Char
  Phone : List Char
  Website : List Char
  Email : List Char
  Rating : Rat
  Query : List Char
  ScrapedAt : Nat
deriving DecidableEq, Repr

/-- Byte-equality of the (email, website) key pair: SQLite's UNIQUE
index comparison under the default BINARY collation. -/
def leadKeyEq (r b : Business) : Bool :=
  r.Email == b.Email && r.Website == b.Website

/-- Models `insertBusiness` (src/main.go lines 783-799) together with
`CREATE UNIQUE INDEX … ON businesses(email, website)` from `initDB`
(line 204): `INSERT OR IGNORE` appends the row unless a row with a
byte-equal (email, website) pair already exists; a duplicate is
silently dropped, never an error. -/
def putLead (store : List Business) (b : Business) : List Business :=
  if store.any (fun r => leadKeyEq r b) then store else store ++ [b]

/-- State of the `collectPlaceURLs` scroll loop (src/main.go lines
296-363).  `acc` is the key set of the Go map `allURLs` in
first-insertion order; `reads` counts executed loop iterations
(feed snapshots read) and is pure instrumentation. -/
structure CollectState where
  acc : List (List Char)
  lastCount : Nat
  noNew : Nat
  attempts : Nat
  reads : Nat
deriving Repr

/-- Merge a snapshot's references into the accumulated key set,
keeping first-seen order and dropping duplicates (`allURLs[u] =
struct{}{}` over a Go map). -/
def insertNew (acc : List (List Char)) : List (List Char) → List (List Char)
  | [] => acc
  | u :: us => insertNew (if u ∈ acc then acc else acc ++ [u]) us

/-- The scroll loop of `collectPlaceURLs`: read the feed snapshot for
the current attempt, merge, reset or bump the stall counter, stop
after 3 consecutive no-growth iterations, otherwise scroll and
continue while attempts remain. -/
def runCollect (feed : Nat → List (List Char)) : Nat → CollectState → CollectState
  | 0, st => st
  | fuel+1, st =>
    let acc' := insertNew st.acc (feed st.attempts)
    if acc'.length > st.lastCount then
      runCollect feed fuel
        ⟨acc', acc'.length, 0, st.attempts + 1, st.reads + 1⟩
    else if st.noNew + 1 ≥ 3 then
      ⟨acc', st.lastCount, st.noNew + 1, st.attempts, st.reads + 1⟩
    else
      runCollect feed fuel
        ⟨acc', st.lastCount, st.noNew + 1, st.attempts + 1, st.reads + 1⟩

/-- The `maxScrolls` normalization of `collectPlaceURLs`
(src/main.go lines 306-309): non-positive configuration means 20. -/
def effMaxScrolls (cfg : Int) : Nat :=
  if cfg ≤ 0 then 20 else cfg.toNat

/-- The loop state after a full collection run. -/
def collectRun (feed : Nat → List (List Char)) (cfgMaxScrolls : Int) : CollectState :=
  runCollect feed (effMaxScrolls cfgMaxScrolls) ⟨[], 0, 0, 0, 0⟩

/-- Models `collectPlaceURLs` (src/main.go lines 279-376) given a feed
of page snapshots. `enum` is the order in which `for u := range
allURLs` enumerates the Go map's keys — unspecified by Go, so it is an
explicit parameter (constrained to a permutation in the theorems);
after enumeration the slice is truncated to `maxResults` when that cap
is positive and exceeded. -/
def collectPlaceURLs (feed : Nat → List (List Char)) (cfgMaxScrolls : Int)
    (maxResults : Int) (enum : List (List Char) → List (List Char)) :
    List (List Char) :=
  let results := enum (collectRun feed cfgMaxScrolls).acc
  if maxResults > 0 ∧ (results.length : Int) > maxResults then
    results.take maxResults.toNat
  else results

/-- The merge of the website scrape into the detail-page contact data
(src/main.go lines 467-474): a non-empty website email replaces the
detail email unconditionally; the website phone only fills a hole. -/
def mergeWebsiteContact (email phone wEmail wPhone : List Char) :
    List Char × List Char :=
  ((if wEmail == [] then email else wEmail),
   (if wPhone != [] && phone == [] then wPhone else phone))

/-- Outcome of the website-enrichment step of `scrapePlacePage`:
not attempted (no usable website), failed (navigation error or
timeout, the `err != nil` branch), or succeeded with the scraped
(email, phone). -/
inductive EnrichOutcome where
  | skipped
  | failed
  | ok (wEmail wPhone : List Char)

/-- Data already extracted from the detail page when
`scrapePlacePage` reaches the enrichment step (src/main.go lines
432-461). -/
structure DetailData where
  name : List Char
  address : List Char
  website : List Char
  email : List Char
  phone : List Char
  rating : Rat
  query : List Char

/-- The lead `scrapePlacePage` builds and hands to `insertBusiness`
(src/main.go lines 463-488): enrichment failure contributes nothing;
the name falls back to "Unknown"; the website is canonicalized. -/
def scrapePlaceLead (d : DetailData) (t : Nat) (outcome : EnrichOutcome) : Business :=
  let contact :=
    match outcome with
    | .skipped => (d.email, d.phone)
    | .failed => (d.email, d.phone)
    | .ok we wp => mergeWebsiteContact d.email d.phone we wp
  { Name := if d.name = [] then "Unknown".data else d.name
    Address := d.address
    Phone := contact.2
    Website := cleanWebsiteURL d.website
    Email := contact.1
    Rating := d.rating
    Query := d.query
    ScrapedAt := t }

/-- `scrapePlacePage`'s hand-off to the store: the built lead is
always passed to `insertBusiness` (src/main.go line 488), whatever the
enrichment outcome was. -/
def scrapePlaceStore (store : List Business) (d : DetailData) (t : Nat)
    (outcome : EnrichOutcome) : List Business :=
  putLead store (scrapePlaceLead d t outcome)

/-- Models `scrapeWebsite` (src/main.go lines 698-743) after the
homepage HTML has been fetched: extract from the homepage; when no
email was found and a contact page was both found and loaded
(`contact = some html`), re-extract from it, the contact phone only
filling a hole; a missing or failing contact page leaves the homepage
results untouched. -/
def scrapeWebsiteModel (homeHtml : List Char) (minDigits : Nat)
    (contact : Option (List Char)) : List Char × List Char :=
  let email := extractFirstEmail homeHtml
  let phone := extractPhone homeHtml minDigits
  if email = [] then
    match contact with
    | some chtml =>
      (extractFirstEmail chtml,
       if phone = [] then extractPhone chtml minDigits else phone)
    | none => (email, phone)
  else (email, phone)

/-! ## Supporting lemmas about `cleanWebsiteURL` -/

lemma mem_cutAtQH {c : Char} : ∀ l : List Char, c ∈ cutAtQH l → c ≠ '?' ∧ c ≠ '#'
  | [], h => by simp [cutAtQH] at h
  | a :: as, h => by
    by_cases ha : (a == '?' || a == '#') = true
    · simp [cutAtQH, ha] at h
    · rw [cutAtQH, if_neg ha] at h
      rcases List.mem_cons.mp h with rfl | h'
      · simpa using ha
      · exact mem_cutAtQH as h'

lemma cutAtQH_eq_self : ∀ l : List Char, (∀ c ∈ l, c ≠ '?' ∧ c ≠ '#') → cutAtQH l = l
  | [], _ => rfl
  | a :: as, h => by
    have ha := h a (List.mem_cons_self a as)
    rw [cutAtQH, if_neg (by simpa using ha)]
    rw [cutAtQH_eq_self as (fun c hc => h c (List.mem_cons_of_mem a hc))]

lemma listStarts_mem : ∀ pat s : List Char, listStarts pat s = true → ∀ c ∈ pat, c ∈ s
  | [], _, _, c, hc => by simp at hc
  | p :: ps, [], h, _, _ => by simp [listStarts] at h
  | p :: ps, a :: as, h, c, hc => by
    rw [listStarts, Bool.and_eq_true, beq_iff_eq] at h
    rcases List.mem_cons.mp hc with rfl | hc'
    · exact h.1 ▸ List.mem_cons_self a as
    · exact List.mem_cons_of_mem a (listStarts_mem ps as h.2 c hc')

lemma hasSub_mem : ∀ (pat s : List Char), hasSub pat s = true → ∀ c ∈ pat, c ∈ s
  | pat, [], h, c, hc => listStarts_mem pat [] h c hc
  | pat, a :: as, h, c, hc => by
    rw [hasSub, Bool.or_eq_true] at h
    rcases h with h | h
    · exact listStarts_mem pat (a :: as) h c hc
    · exact List.mem_cons_of_mem a (hasSub_mem pat as h c hc)

lemma mem_goTrimSpace {c : Char} {l : List Char} (h : c ∈ goTrimSpace l) : c ∈ l := by
  rw [goTrimSpace, List.mem_reverse] at h
  have h1 := (List.dropWhile_sublist (l := (l.dropWhile goIsSpace).reverse)
    (p := goIsSpace)).subset h
  rw [List.mem_reverse] at h1
  exact (List.dropWhile_sublist (l := l) (p := goIsSpace)).subset h1

lemma mem_cleanWebsiteURL {c : Char} {u : List Char} (h : c ∈ cleanWebsiteURL u) :
    c ≠ '?' ∧ c ≠ '#' := by
  rw [cleanWebsiteURL] at h
  by_cases he : goTrimSpace u = []
  · simp [he] at h
  · rw [if_neg he] at h
    exact mem_cutAtQH _ h

lemma cleanWebsiteURL_of_no_qh (v : List Char) (h : ∀ c ∈ v, c ≠ '?' ∧ c ≠ '#') :
    cleanWebsiteURL v = goTrimSpace v := by
  rw [cleanWebsiteURL]
  by_cases he : goTrimSpace v = []
  · simp [he]
  · rw [if_neg he]
    have hmem : ∀ c ∈ goTrimSpace v, c ≠ '?' ∧ c ≠ '#' :=
      fun c hc => h c (mem_goTrimSpace hc)
    have hcont : goContains (goTrimSpace v) urlWrapMark = false := by
      by_contra hc
      have hc' : hasSub urlWrapMark (goTrimSpace v) = true := by
        revert hc
        rw [goContains]
        exact fun hc => Bool.of_not_eq_false hc
      have hq : '?' ∈ goTrimSpace v :=
        hasSub_mem urlWrapMark (goTrimSpace v) hc' '?' (by decide)
      exact (hmem '?' hq).1 rfl
    rw [hcont]
    simp only [Bool.false_eq_true, if_false]
    exact cutAtQH_eq_self _ hmem

/-- C7 — URL canonicalization: the website-cleaning function unwraps a
search-engine outbound-link wrapper to its `q` parameter target and
strips any trailing query string or fragment, on the two inputs the
claim exhibits. -/
theorem c7_url_canonicalization :
    cleanWebsiteURL "https://www.google.com/url?q=https://realbiz.co/contact&sa=U".data
        = "https://realbiz.co/contact".data ∧
    cleanWebsiteURL "https://realbiz.co/?utm=x#frag".data
        = "https://realbiz.co/".data := by
  exact ⟨by decide, by decide⟩

/-- C10 — counterexample: cleaning is not idempotent.  On
`"x/url?q= b"` one pass yields `" b"` (the unwrapped target keeps its
leading space), while a second pass trims it to `"b"`. -/
theorem c10_counterexample :
    cleanWebsiteURL (cleanWebsiteURL "x/url?q= b".data)
      ≠ cleanWebsiteURL "x/url?q= b".data := by decide

/-- C10 — amended: cleaning twice equals trimming the once-cleaned
result (the once-cleaned output contains no `?`, `#` or `/url?q=`
wrapper, so the second pass only re-trims whitespace); hence cleaning
is idempotent exactly on inputs whose cleaned form carries no
surrounding whitespace. -/
theorem c10_clean_twice_amended (u : List Char) :
    cleanWebsiteURL (cleanWebsiteURL u) = goTrimSpace (cleanWebsiteURL u) :=
  cleanWebsiteURL_of_no_qh (cleanWebsiteURL u) (fun _ hc => mem_cleanWebsiteURL hc)

/-! ## Supporting lemmas about `extractEmails` -/

lemma extractEmailsLoop_sound :
    ∀ (ms seen out : List (List Char)) (e : List Char),
      e ∈ extractEmailsLoop ms seen out →
      e ∈ out ∨ isExcludedEmail (goToLower e) = false
  | [], _, out, e, h => Or.inl h
  | m :: rest, seen, out, e, h => by
    rw [extractEmailsLoop] at h
    by_cases h1 : goToLower (goTrimSpace m) ∈ seen
    · rw [if_pos h1] at h
      exact extractEmailsLoop_sound rest seen out e h
    · rw [if_neg h1] at h
      by_cases h2 : isExcludedEmail (goToLower (goTrimSpace m)) = true
      · rw [if_pos h2] at h
        exact extractEmailsLoop_sound rest seen out e h
      · rw [if_neg h2] at h
        rcases extractEmailsLoop_sound rest _ _ e h with hout | hP
        · rcases List.mem_append.mp hout with h3 | h3
          · exact Or.inl h3
          · right
            have he : e = goTrimSpace m := by simpa using h3
            rw [he]
            exact Bool.of_not_eq_true h2
        · exact Or.inr hP

/-- C3 — Email exclusion: every email the extractor returns is free of
every exclusion-list substring (case-insensitively), and on the
claim's concrete input the chosen email is `sales@realbiz.co`, not the
excluded placeholder address. -/
theorem c3_email_exclusion :
    (∀ (text e : List Char), e ∈ extractEmails text →
        ∀ pat ∈ invalidEmailPatterns, goContains (goToLower e) pat = false) ∧
    extractFirstEmail "contact us: sampleemail@example.com or sales@realbiz.co".data
        = "sales@realbiz.co".data := by
  constructor
  · intro text e he pat hpat
    rcases extractEmailsLoop_sound (emailFindAll text) [] [] e he with h | h
    · simp at h
    · rw [isExcludedEmail, List.any_eq_false] at h
      exact Bool.of_not_eq_true (h pat hpat)
  · decide

/-- Witness for C3: the returned email of the claim's example indeed
avoids a concrete exclusion pattern. -/
theorem c3_witness :
    goContains (goToLower "sales@realbiz.co".data) "noreply".data = false :=
  c3_email_exclusion.1
    "contact us: sampleemail@example.com or sales@realbiz.co".data
    "sales@realbiz.co".data (by decide) "noreply".data (by decide)

/-! ## Supporting lemmas about `extractPhone` -/

lemma digitsOf_group10 (ds : List Char) (h : ∀ c ∈ ds, Char.isDigit c) :
    digitsOf ('(' :: (ds.take 3 ++ (')' :: ' ' :: ((ds.drop 3).take 3 ++
      ('-' :: ds.drop 6))))) = ds := by
  have ht : ∀ c ∈ ds.take 3, Char.isDigit c :=
    fun c hc => h c (List.take_subset _ _ hc)
  have hm : ∀ c ∈ (ds.drop 3).take 3, Char.isDigit c :=
    fun c hc => h c (List.drop_subset _ _ (List.take_subset _ _ hc))
  have hd : ∀ c ∈ ds.drop 6, Char.isDigit c :=
    fun c hc => h c (List.drop_subset _ _ hc)
  simp only [digitsOf, List.filter_cons, List.filter_append,
    show Char.isDigit '(' = false from rfl, show Char.isDigit ')' = false from rfl,
    show Char.isDigit ' ' = false from rfl, show Char.isDigit '-' = false from rfl,
    Bool.false_eq_true, if_false]
  rw [List.filter_eq_self.mpr ht, List.filter_eq_self.mpr hm,
    List.filter_eq_self.mpr hd]
  rw [show (6 : Nat) = 3 + 3 from rfl, ← List.drop_drop,
    List.take_append_drop, List.take_append_drop]

lemma digitsOf_group11 (as : List Char) (h : ∀ c ∈ as, Char.isDigit c) :
    digitsOf ('+' :: '1' :: ' ' :: '(' :: (as.take 3 ++ (')' :: ' ' ::
      ((as.drop 3).take 3 ++ ('-' :: as.drop 6))))) = '1' :: as := by
  have ht : ∀ c ∈ as.take 3, Char.isDigit c :=
    fun c hc => h c (List.take_subset _ _ hc)
  have hm : ∀ c ∈ (as.drop 3).take 3, Char.isDigit c :=
    fun c hc => h c (List.drop_subset _ _ (List.take_subset _ _ hc))
  have hd : ∀ c ∈ as.drop 6, Char.isDigit c :=
    fun c hc => h c (List.drop_subset _ _ hc)
  simp only [digitsOf, List.filter_cons, List.filter_append,
    show Char.isDigit '(' = false from rfl, show Char.isDigit ')' = false from rfl,
    show Char.isDigit ' ' = false from rfl, show Char.isDigit '-' = false from rfl,
    show Char.isDigit '+' = false from rfl, show Char.isDigit '1' = true from rfl,
    Bool.false_eq_true, if_false, if_true]
  rw [List.filter_eq_self.mpr ht, List.filter_eq_self.mpr hm,
    List.filter_eq_self.mpr hd]
  rw [show (6 : Nat) = 3 + 3 from rfl, ← List.drop_drop,
    List.take_append_drop, List.take_append_drop]

lemma digitsOf_formatPhone (m : List Char) :
    digitsOf (formatPhone m) = digitsOf m := by
  rw [formatPhone]
  have hall : ∀ c ∈ digitsOf m, Char.isDigit c :=
    fun c hc => List.of_mem_filter hc
  by_cases h10 : ((digitsOf m).length == 10) = true
  · rw [if_pos h10]
    exact digitsOf_group10 (digitsOf m) hall
  · rw [if_neg h10]
    by_cases h11 : ((digitsOf m).length == 11 && (digitsOf m)[0]? == some '1') = true
    · rw [if_pos h11]
      rw [Bool.and_eq_true, beq_iff_eq, beq_iff_eq] at h11
      obtain ⟨hlen, hhead⟩ := h11
      match hm : digitsOf m, hlen, hhead with
      | a :: as, hlen, hhead =>
        have ha : a = '1' := by simpa using hhead
        subst ha
        have has : ∀ c ∈ as, Char.isDigit c := by
          intro c hc
          exact (hm ▸ hall) c (List.mem_cons_of_mem _ hc)
        exact digitsOf_group11 as has
    · rw [if_neg h11]

lemma pickPhone_sound : ∀ (ms : List (List Char)) (minD : Nat),
    pickPhone ms minD ≠ [] →
    ∃ m, pickPhone ms minD = formatPhone m ∧
      isInvalidPhone (digitsOf m) = false ∧
      minD ≤ (digitsOf m).length ∧ (digitsOf m).length ≤ 15
  | [], _, h => absurd rfl h
  | m :: rest, minD, h => by
    rw [pickPhone] at h ⊢
    by_cases h1 : (decide ((digitsOf m).length < minD) ||
        decide ((digitsOf m).length > 15)) = true
    · rw [if_pos h1] at h ⊢
      exact pickPhone_sound rest minD h
    · rw [if_neg h1] at h ⊢
      by_cases h2 : isInvalidPhone (digitsOf m) = true
      · rw [if_pos h2] at h ⊢
        exact pickPhone_sound rest minD h
      · rw [if_neg h2] at h ⊢
        refine ⟨m, rfl, Bool.of_not_eq_true h2, ?_, ?_⟩
        · have := (Bool.or_eq_false_iff.mp (Bool.of_not_eq_true h1)).1
          simpa using this
        · have := (Bool.or_eq_false_iff.mp (Bool.of_not_eq_true h1)).2
          simpa using this

lemma isInvalidPhone_of_year (ds : List Char) (v : Nat) (h8 : ds.length = 8)
    (hatoi : goAtoi (ds.take 4) = some v) (hy1 : 1900 ≤ v) (hy2 : v ≤ 2100) :
    isInvalidPhone ds = true := by
  rw [isInvalidPhone]
  have h1 : (if (ds.length == 8) = true then
      (match goAtoi (ds.take 4) with
       | some year => decide (1900 ≤ year) && decide (year ≤ 2100)
       | none => false)
      else false) = true := by
    rw [if_pos (by simp [h8]), hatoi]
    show (decide (1900 ≤ v) && decide (v ≤ 2100)) = true
    simp [hy1, hy2]
  rw [h1]
  rfl

/-- C4 — Phone year-rejection: any phone the extractor returns never
has an 8-digit form whose leading four digits are a year in
[1900, 2100]; an 8-digit non-year candidate such as "55512345" is
accepted whenever the configured minimum digit count is at most 8; and
the year-led "19902024" is rejected outright. -/
theorem c4_phone_year_rejection :
    (∀ (text : List Char) (minDigits : Nat),
        extractPhone text minDigits ≠ [] →
        ¬((digitsOf (extractPhone text minDigits)).length = 8 ∧
          1900 ≤ digitsVal ((digitsOf (extractPhone text minDigits)).take 4) ∧
          digitsVal ((digitsOf (extractPhone text minDigits)).take 4) ≤ 2100)) ∧
    (∀ minDigits : Nat, minDigits ≤ 8 →
        extractPhone "55512345".data minDigits = "55512345".data) ∧
    extractPhone "19902024".data 8 = [] := by
  refine ⟨?_, ?_, by decide⟩
  · intro text minDigits h hbad
    rw [extractPhone] at h
    obtain ⟨m, hEq, hinv, _, _⟩ := pickPhone_sound _ minDigits h
    have hds : digitsOf (extractPhone text minDigits) = digitsOf m := by
      rw [extractPhone, hEq, digitsOf_formatPhone]
    rw [hds] at hbad
    obtain ⟨hlen, hy1, hy2⟩ := hbad
    have htk : (digitsOf m).take 4 ≠ [] := by
      have : ((digitsOf m).take 4).length = 4 := by
        rw [List.length_take, hlen]
        decide
      intro hnil
      rw [hnil] at this
      simp at this
    have hdig : ((digitsOf m).take 4).all Char.isDigit = true := by
      rw [List.all_eq_true]
      intro c hc
      exact List.of_mem_filter (List.take_subset _ _ hc)
    have hatoi : goAtoi ((digitsOf m).take 4)
        = some (digitsVal ((digitsOf m).take 4)) := by
      rw [goAtoi, if_pos ⟨htk, hdig⟩]
    have := isInvalidPhone_of_year (digitsOf m) _ hlen hatoi hy1 hy2
    rw [this] at hinv
    exact absurd hinv (by simp)
  · intro minDigits hm
    rw [extractPhone,
      show phoneFindAll phonePat1 "55512345".data = ["55512345".data] from by decide,
      show phoneFindAll phonePat2 "55512345".data = [] from by decide,
      List.append_nil]
    rw [pickPhone]
    rw [show digitsOf "55512345".data = "55512345".data from by decide,
      show ("55512345".data).length = 8 from by decide]
    rw [if_neg (by simp; omega)]
    rw [if_neg (by decide)]
    decide

/-- Witness for C4: the acceptance part applied at the minimum digit
count 8. -/
theorem c4_witness : extractPhone "55512345".data 8 = "55512345".data :=
  c4_phone_year_rejection.2.1 8 (by decide)

/-! ## Lead Store claims -/

/-- C1 — Idempotent persistence: on a store holding no row with L's
(email, website) key, inserting L twice leaves the store exactly as
one insert does (the second is a silent no-op, not an error), with
exactly one row carrying L's key, and that row is L itself. -/
theorem c1_idempotent_persistence (store : List Business) (L : Business)
    (h : ∀ r ∈ store, ¬(r.Email = L.Email ∧ r.Website = L.Website)) :
    putLead (putLead store L) L = putLead store L ∧
    (putLead (putLead store L) L).countP (fun r => leadKeyEq r L) = 1 ∧
    ∀ r ∈ putLead (putLead store L) L,
      r.Email = L.Email ∧ r.Website = L.Website → r = L := by
  have hkey : ∀ r ∈ store, leadKeyEq r L = false := by
    intro r hr
    rw [leadKeyEq]
    rcases not_and_or.mp (h r hr) with he | hw
    · simp [he]
    · simp [hw]
  have hany : store.any (fun r => leadKeyEq r L) = false := by
    rw [List.any_eq_false]
    intro r hr
    rw [hkey r hr]
    simp
  have h1 : putLead store L = store ++ [L] := by
    rw [putLead, hany]
    simp
  have hself : (store ++ [L]).any (fun r => leadKeyEq r L) = true := by
    rw [List.any_eq_true]
    exact ⟨L, List.mem_append_right _ (List.mem_singleton_self L),
      by rw [leadKeyEq]; simp⟩
  have h2 : putLead (store ++ [L]) L = store ++ [L] := by
    rw [putLead, hself]
    rfl
  rw [h1, h2]
  refine ⟨rfl, ?_, ?_⟩
  · rw [List.countP_append]
    have hz : store.countP (fun r => leadKeyEq r L) = 0 := by
      rw [List.countP_eq_zero]
      intro r hr
      rw [hkey r hr]
      simp
    rw [hz]
    rw [List.countP_singleton]
    rw [show leadKeyEq L L = true from by rw [leadKeyEq]; simp]
    simp
  · intro r hr hk
    rcases List.mem_append.mp hr with hr' | hr'
    · exact absurd hk (h r hr')
    · simpa using hr'

/-- A concrete lead used to witness C1. -/
def sampleLead : Business :=
  ⟨"Biz".data, "1 Main St".data, "(555) 123-4567".data,
   "https://realbiz.co/contact".data, "sales@realbiz.co".data, 0,
   "restaurant athens".data, 0⟩

/-- Witness for C1 at the empty store and a concrete lead. -/
theorem c1_witness :
    putLead (putLead [] sampleLead) sampleLead = putLead [] sampleLead ∧
    (putLead (putLead [] sampleLead) sampleLead).countP
      (fun r => leadKeyEq r sampleLead) = 1 ∧
    ∀ r ∈ putLead (putLead [] sampleLead) sampleLead,
      r.Email = sampleLead.Email ∧ r.Website = sampleLead.Website →
        r = sampleLead :=
  c1_idempotent_persistence [] sampleLead (by decide)

/-- First of two leads whose emails differ only in letter case. -/
def leadUpperCase : Business :=
  ⟨"A".data, [], [], "https://realbiz.co".data, "Sales@RealBiz.co".data, 0, [], 0⟩

/-- Second of two leads whose emails differ only in letter case. -/
def leadLowerCase : Business :=
  ⟨"B".data, [], [], "https://realbiz.co".data, "sales@realbiz.co".data, 0, [], 1⟩

/-- C2 — counterexample: the store's key comparison is byte-exact, not
case-normalized.  Two leads whose emails differ only in case (same
website) are both stored: the store ends with two rows, not one. -/
theorem c2_counterexample :
    goToLower leadUpperCase.Email = goToLower leadLowerCase.Email ∧
    leadUpperCase.Website = leadLowerCase.Website ∧
    leadUpperCase.Email ≠ leadLowerCase.Email ∧
    putLead (putLead [] leadUpperCase) leadLowerCase
      = [leadUpperCase, leadLowerCase] ∧
    (putLead (putLead [] leadUpperCase) leadLowerCase).length ≠ 1 := by
  refine ⟨by decide, by decide, by decide, by decide, by decide⟩

/-- C2 — amended: duplicate detection compares the (email, website)
pair byte-for-byte (case-sensitively); any two leads differing in
email or website bytes — in particular differing only in email case — are both
stored, each preserving its own original casing. -/
theorem c2_exact_key_amended (L1 L2 : Business)
    (h : L1.Email ≠ L2.Email ∨ L1.Website ≠ L2.Website) :
    putLead (putLead [] L1) L2 = [L1, L2] := by
  have h0 : putLead [] L1 = [L1] := rfl
  rw [h0, putLead]
  have : ([L1].any fun r => leadKeyEq r L2) = false := by
    rw [List.any_eq_false]
    intro r hr
    rw [List.mem_singleton.mp hr, leadKeyEq]
    rcases h with he | hw
    · simp [he]
    · simp [hw]
  rw [this]
  rfl

/-- Witness for the amended C2 at the two case-differing leads. -/
theorem c2_witness :
    putLead (putLead [] leadUpperCase) leadLowerCase
      = [leadUpperCase, leadLowerCase] :=
  c2_exact_key_amended leadUpperCase leadLowerCase (Or.inl (by decide))

/-! ## Contact Enrichment Chain claims -/

/-- C8 — Merge priority: a non-empty website email unconditionally
replaces the detail-page email; the detail-page phone is kept whenever
non-empty and the website phone only fills an empty slot; on the
claim's concrete inputs the merge yields ("info@x.com",
"(555) 123-4567"). -/
theorem c8_merge_priority :
    (∀ email phone wEmail wPhone : List Char, wEmail ≠ [] →
        (mergeWebsiteContact email phone wEmail wPhone).1 = wEmail) ∧
    (∀ email phone wEmail wPhone : List Char, phone ≠ [] →
        (mergeWebsiteContact email phone wEmail wPhone).2 = phone) ∧
    (∀ email wEmail wPhone : List Char, wPhone ≠ [] →
        (mergeWebsiteContact email [] wEmail wPhone).2 = wPhone) ∧
    mergeWebsiteContact [] "(555) 123-4567".data "info@x.com".data
        "555-000-0000".data
      = ("info@x.com".data, "(555) 123-4567".data) := by
  refine ⟨?_, ?_, ?_, by decide⟩
  · intro email phone wEmail wPhone h
    rw [mergeWebsiteContact]
    simp [h]
  · intro email phone wEmail wPhone h
    rw [mergeWebsiteContact]
    simp [h]
  · intro email wEmail wPhone h
    rw [mergeWebsiteContact]
    simp [h]

/-- Witness for C8: the website-email-wins part at concrete inputs. -/
theorem c8_witness :
    (mergeWebsiteContact "old@a.co".data "(555) 123-4567".data
      "info@x.com".data []).1 = "info@x.com".data :=
  c8_merge_priority.1 "old@a.co".data "(555) 123-4567".data
    "info@x.com".data [] (by decide)

/-- C9 — Navigation-failure containment: when website enrichment
fails, the lead built by `scrapePlacePage` keeps the detail-page email
and phone unchanged and is still handed to the store exactly as in any
other outcome; and inside `scrapeWebsite` a missing or failing
contact-page navigation leaves the homepage extraction untouched. -/
theorem c9_navigation_failure_containment :
    (∀ (d : DetailData) (t : Nat),
        (scrapePlaceLead d t .failed).Email = d.email ∧
        (scrapePlaceLead d t .failed).Phone = d.phone) ∧
    (∀ (store : List Business) (d : DetailData) (t : Nat)
        (outcome : EnrichOutcome),
        scrapePlaceStore store d t outcome
          = putLead store (scrapePlaceLead d t outcome)) ∧
    (∀ (homeHtml : List Char) (minDigits : Nat),
        scrapeWebsiteModel homeHtml minDigits none
          = (extractFirstEmail homeHtml, extractPhone homeHtml minDigits)) := by
  refine ⟨fun d t => ⟨rfl, rfl⟩, fun store d t outcome => rfl, ?_⟩
  intro homeHtml minDigits
  rw [scrapeWebsiteModel]
  by_cases h : extractFirstEmail homeHtml = []
  · rw [if_pos h]
  · rw [if_neg h]

/-! ## Supporting lemmas about the collection loop -/

lemma mem_insertNew_left {a : List Char} :
    ∀ (us acc : List (List Char)), a ∈ acc → a ∈ insertNew acc us
  | [], _, h => h
  | u :: us, acc, h => by
    rw [insertNew]
    apply mem_insertNew_left us
    by_cases hu : u ∈ acc
    · rwa [if_pos hu]
    · rw [if_neg hu]
      exact List.mem_append_left _ h

lemma mem_insertNew_right {a : List Char} :
    ∀ (us acc : List (List Char)), a ∈ us → a ∈ insertNew acc us
  | u :: us, acc, h => by
    rw [insertNew]
    rcases List.mem_cons.mp h with rfl | h'
    · apply mem_insertNew_left us
      by_cases hu : a ∈ acc
      · rwa [if_pos hu]
      · rw [if_neg hu]
        exact List.mem_append_right _ (List.mem_singleton_self a)
    · exact mem_insertNew_right us _ h'

lemma insertNew_eq_self :
    ∀ (us acc : List (List Char)), (∀ u ∈ us, u ∈ acc) → insertNew acc us = acc
  | [], _, _ => rfl
  | u :: us, acc, h => by
    rw [insertNew, if_pos (h u (List.mem_cons_self u us))]
    exact insertNew_eq_self us acc (fun v hv => h v (List.mem_cons_of_mem u hv))

lemma length_le_insertNew :
    ∀ (us acc : List (List Char)), acc.length ≤ (insertNew acc us).length
  | [], _ => le_refl _
  | u :: us, acc => by
    rw [insertNew]
    by_cases hu : u ∈ acc
    · rw [if_pos hu]
      exact length_le_insertNew us acc
    · rw [if_neg hu]
      calc acc.length ≤ (acc ++ [u]).length := by simp
        _ ≤ _ := length_le_insertNew us (acc ++ [u])

lemma insertNew_nodup :
    ∀ (us acc : List (List Char)), acc.Nodup → (insertNew acc us).Nodup
  | [], _, h => h
  | u :: us, acc, h => by
    rw [insertNew]
    apply insertNew_nodup us
    by_cases hu : u ∈ acc
    · rwa [if_pos hu]
    · rw [if_neg hu]
      rw [List.nodup_append]
      exact ⟨h, List.nodup_singleton u, by simpa using hu⟩

lemma runCollect_reads_le (feed : Nat → List (List Char)) :
    ∀ (fuel : Nat) (st : CollectState),
      (runCollect feed fuel st).reads ≤ st.reads + fuel
  | 0, st => Nat.le_add_right _ _
  | fuel+1, st => by
    rw [runCollect]
    by_cases h1 : (insertNew st.acc (feed st.attempts)).length > st.lastCount
    · rw [if_pos h1]
      calc (runCollect feed fuel _).reads ≤ (st.reads + 1) + fuel :=
            runCollect_reads_le feed fuel _
        _ = st.reads + (fuel + 1) := by omega
    · rw [if_neg h1]
      by_cases h2 : st.noNew + 1 ≥ 3
      · rw [if_pos h2]
        show st.reads + 1 ≤ st.reads + (fuel + 1)
        omega
      · rw [if_neg h2]
        calc (runCollect feed fuel _).reads ≤ (st.reads + 1) + fuel :=
              runCollect_reads_le feed fuel _
          _ = st.reads + (fuel + 1) := by omega

lemma runCollect_nodup (feed : Nat → List (List Char)) :
    ∀ (fuel : Nat) (st : CollectState),
      st.acc.Nodup → (runCollect feed fuel st).acc.Nodup
  | 0, _, h => h
  | fuel+1, st, h => by
    rw [runCollect]
    have h' := insertNew_nodup (feed st.attempts) st.acc h
    by_cases h1 : (insertNew st.acc (feed st.attempts)).length > st.lastCount
    · rw [if_pos h1]
      exact runCollect_nodup feed fuel _ h'
    · rw [if_neg h1]
      by_cases h2 : st.noNew + 1 ≥ 3
      · rw [if_pos h2]
        exact h'
      · rw [if_neg h2]
        exact runCollect_nodup feed fuel _ h'

lemma runCollect_stall (feed : Nat → List (List Char)) (k : Nat)
    (hsat : ∀ i, k ≤ i → ∀ u ∈ feed i, ∃ j, j < k ∧ u ∈ feed j) :
    ∀ (fuel : Nat) (st : CollectState),
      k ≤ st.attempts →
      (∀ j, j < st.attempts → ∀ u ∈ feed j, u ∈ st.acc) →
      st.lastCount = st.acc.length →
      st.noNew < 3 →
      (runCollect feed fuel st).reads ≤ st.reads + (3 - st.noNew)
  | 0, st, _, _, _, _ => Nat.le_add_right _ _
  | fuel+1, st, hk, hinv, hlast, hn => by
    have hsub : ∀ u ∈ feed st.attempts, u ∈ st.acc := by
      intro u hu
      obtain ⟨j, hj, hu'⟩ := hsat st.attempts hk u hu
      exact hinv j (lt_of_lt_of_le hj hk) u hu'
    have hacc : insertNew st.acc (feed st.attempts) = st.acc :=
      insertNew_eq_self _ _ hsub
    rw [runCollect, hacc]
    rw [if_neg (by omega)]
    by_cases h2 : st.noNew + 1 ≥ 3
    · rw [if_pos h2]
      show st.reads + 1 ≤ st.reads + (3 - st.noNew)
      omega
    · rw [if_neg h2]
      have hrec := runCollect_stall feed k hsat fuel
        ⟨st.acc, st.lastCount, st.noNew + 1, st.attempts + 1, st.reads + 1⟩
        (by simp; omega)
        (by
          intro j hj u hu
          rcases Nat.lt_succ_iff_lt_or_eq.mp hj with h | h
          · exact hinv j h u hu
          · subst h; exact hsub u hu)
        hlast
        (by simp; omega)
      calc (runCollect feed fuel _).reads
          ≤ (st.reads + 1) + (3 - (st.noNew + 1)) := hrec
        _ ≤ st.reads + (3 - st.noNew) := by omega

lemma runCollect_ramp (feed : Nat → List (List Char)) (k : Nat)
    (hsat : ∀ i, k ≤ i → ∀ u ∈ feed i, ∃ j, j < k ∧ u ∈ feed j) :
    ∀ (fuel : Nat) (st : CollectState),
      st.attempts ≤ k →
      st.reads = st.attempts →
      (∀ j, j < st.attempts → ∀ u ∈ feed j, u ∈ st.acc) →
      st.lastCount = st.acc.length →
      st.noNew < 3 →
      (runCollect feed fuel st).reads ≤ k + 3
  | 0, st, hak, hra, _, _, _ => by
    show st.reads ≤ k + 3
    omega
  | fuel+1, st, hak, hra, hinv, hlast, hn => by
    by_cases hk2 : k ≤ st.attempts
    · have := runCollect_stall feed k hsat (fuel+1) st hk2 hinv hlast hn
      omega
    · rw [runCollect]
      by_cases h1 : (insertNew st.acc (feed st.attempts)).length > st.lastCount
      · rw [if_pos h1]
        apply runCollect_ramp feed k hsat fuel
        · show st.attempts + 1 ≤ k
          omega
        · show st.reads + 1 = st.attempts + 1
          omega
        · intro j hj u hu
          rcases Nat.lt_succ_iff_lt_or_eq.mp hj with h | h
          · exact mem_insertNew_left _ _ (hinv j h u hu)
          · subst h
            exact mem_insertNew_right _ _ hu
        · rfl
        · show (0 : Nat) < 3
          omega
      · rw [if_neg h1]
        by_cases h2 : st.noNew + 1 ≥ 3
        · rw [if_pos h2]
          show st.reads + 1 ≤ k + 3
          omega
        · rw [if_neg h2]
          have hlen : st.lastCount = (insertNew st.acc (feed st.attempts)).length := by
            have := length_le_insertNew (feed st.attempts) st.acc
            omega
          apply runCollect_ramp feed k hsat fuel
          · show st.attempts + 1 ≤ k
            omega
          · show st.reads + 1 = st.attempts + 1
            omega
          · intro j hj u hu
            rcases Nat.lt_succ_iff_lt_or_eq.mp hj with h | h
            · exact mem_insertNew_left _ _ (hinv j h u hu)
            · subst h
              exact mem_insertNew_right _ _ hu
          · exact hlen
          · show st.noNew + 1 < 3
            omega

lemma collectPlaceURLs_nodup (feed : Nat → List (List Char))
    (cfgMaxScrolls maxResults : Int)
    (enum : List (List Char) → List (List Char))
    (henum : ∀ l, (enum l).Perm l) :
    (collectPlaceURLs feed cfgMaxScrolls maxResults enum).Nodup := by
  have hacc : (collectRun feed cfgMaxScrolls).acc.Nodup :=
    runCollect_nodup feed _ _ List.nodup_nil
  have hen : (enum (collectRun feed cfgMaxScrolls).acc).Nodup :=
    ((henum _).nodup_iff).mpr hacc
  rw [collectPlaceURLs]
  by_cases hc : maxResults > 0 ∧
      ((enum (collectRun feed cfgMaxScrolls).acc).length : Int) > maxResults
  · rw [if_pos hc]
    exact hen.sublist (List.take_sublist _ _)
  · rw [if_neg hc]
    exact hen

lemma mem_collectPlaceURLs (feed : Nat → List (List Char))
    (cfgMaxScrolls maxResults : Int)
    (enum : List (List Char) → List (List Char))
    (henum : ∀ l, (enum l).Perm l) (u : List Char)
    (hu : u ∈ collectPlaceURLs feed cfgMaxScrolls maxResults enum) :
    u ∈ (collectRun feed cfgMaxScrolls).acc := by
  rw [collectPlaceURLs] at hu
  by_cases hc : maxResults > 0 ∧
      ((enum (collectRun feed cfgMaxScrolls).acc).length : Int) > maxResults
  · rw [if_pos hc] at hu
    exact (henum _).subset (List.take_subset _ _ hu)
  · rw [if_neg hc] at hu
    exact (henum _).subset hu

/-- C5 — Pagination termination: on a feed that yields nothing new
from iteration k onward, the collection loop performs at most k+3
iterations (three consecutive no-growth reads end it), never more than
the configured maximum pagination attempts, and the returned candidate
sequence is duplicate-free. -/
theorem c5_pagination_termination (feed : Nat → List (List Char))
    (cfgMaxScrolls maxResults : Int)
    (enum : List (List Char) → List (List Char)) (k : Nat)
    (hsat : ∀ i, k ≤ i → ∀ u ∈ feed i, ∃ j, j < k ∧ u ∈ feed j)
    (henum : ∀ l, (enum l).Perm l) :
    (collectRun feed cfgMaxScrolls).reads ≤ k + 3 ∧
    (collectRun feed cfgMaxScrolls).reads ≤ effMaxScrolls cfgMaxScrolls ∧
    (collectPlaceURLs feed cfgMaxScrolls maxResults enum).Nodup := by
  refine ⟨?_, ?_, collectPlaceURLs_nodup feed _ _ enum henum⟩
  · exact runCollect_ramp feed k hsat _ ⟨[], 0, 0, 0, 0⟩ (Nat.zero_le k) rfl
      (fun j hj => absurd hj (Nat.not_lt_zero j)) rfl (by decide)
  · have := runCollect_reads_le feed (effMaxScrolls cfgMaxScrolls) ⟨[], 0, 0, 0, 0⟩
    simpa using this

/-- Witness for C5 at a constant one-element feed (stable from
iteration 1 on), the default bounds and the identity enumeration. -/
theorem c5_witness :
    (collectRun (fun _ => ["a".data]) 20).reads ≤ 1 + 3 ∧
    (collectRun (fun _ => ["a".data]) 20).reads ≤ effMaxScrolls 20 ∧
    (collectPlaceURLs (fun _ => ["a".data]) 20 0 id).Nodup :=
  c5_pagination_termination (fun _ => ["a".data]) 20 0 id 1
    (fun _ _ _ hu => ⟨0, Nat.zero_lt_one, hu⟩)
    (fun l => List.Perm.refl l)

/-- C6 — counterexample: the returned sequence is the Go map's
iteration order, not insertion order.  On a constant two-element feed
with cap 1, the accumulated set in first-seen order is ["a", "b"], yet
enumerating the map in the reversed (equally admissible) order returns
["b"], not the first-seen ["a"]. -/
theorem c6_counterexample :
    (collectRun (fun _ => ["a".data, "b".data]) 20).acc
        = ["a".data, "b".data] ∧
    (List.reverse ["a".data, "b".data]).Perm ["a".data, "b".data] ∧
    collectPlaceURLs (fun _ => ["a".data, "b".data]) 20 1 List.reverse
        = ["b".data] ∧
    ("b".data : List Char) ≠ "a".data := by
  refine ⟨by decide, List.reverse_perm _, by decide, by decide⟩

/-- C6 — amended: for every admissible map-enumeration order the
collector returns a duplicate-free sequence drawn from the accumulated
reference set and respecting a configured positive cap; the order is
the unspecified map-iteration order, so neither cross-run order
stability nor insertion-order truncation is guaranteed. -/
theorem c6_map_order_amended (feed : Nat → List (List Char))
    (cfgMaxScrolls maxResults : Int)
    (enum : List (List Char) → List (List Char))
    (henum : ∀ l, (enum l).Perm l) :
    (collectPlaceURLs feed cfgMaxScrolls maxResults enum).Nodup ∧
    (∀ u ∈ collectPlaceURLs feed cfgMaxScrolls maxResults enum,
        u ∈ (collectRun feed cfgMaxScrolls).acc) ∧
    (0 < maxResults →
      ((collectPlaceURLs feed cfgMaxScrolls maxResults enum).length : Int)
        ≤ maxResults) := by
  refine ⟨collectPlaceURLs_nodup feed _ _ enum henum,
    fun u hu => mem_collectPlaceURLs feed _ _ enum henum u hu, ?_⟩
  intro hpos
  rw [collectPlaceURLs]
  by_cases hc : maxResults > 0 ∧
      ((enum (collectRun feed cfgMaxScrolls).acc).length : Int) > maxResults
  · rw [if_pos hc]
    rw [List.length_take]
    have h1 : maxResults.toNat ⊓
        (enum (collectRun feed cfgMaxScrolls).acc).length ≤ maxResults.toNat :=
      Nat.min_le_left _ _
    omega
  · rw [if_neg hc]
    rcases not_and_or.mp hc with h | h
    · exact absurd hpos h
    · omega

/-- Witness for the amended C6 at a concrete feed with the identity
enumeration. -/
theorem c6_witness :
    (collectPlaceURLs (fun _ => ["a".data]) 20 1 id).Nodup ∧
    (∀ u ∈ collectPlaceURLs (fun _ => ["a".data]) 20 1 id,
        u ∈ (collectRun (fun _ => ["a".data]) 20).acc) ∧
    (0 < (1 : Int) →
      ((collectPlaceURLs (fun _ => ["a".data]) 20 1 id).length : Int) ≤ 1) :=
  c6_map_order_amended (fun _ => ["a".data]) 20 1 id (fun l => List.Perm.refl l)
